import Mathlib

/-!
Verification development for the interprete-notepad repository.

Text is modelled as `List Char`.  The Electron shell's JavaScript
(`renderer.js`, `api.js`, `main.js`) is embedded as executable Lean
functions; the backend core (protector, glossary) is not shipped in the
sources available here, so it is modelled from the specification where a
claim needs it (each such definition is marked in its doc comment).
-/

namespace Interprete

/-! ## Normalizer (from `normalizeFrontend` in renderer.js)

`normalizeFrontend` removes NUL, U+200B and U+FEFF characters, applies
Unicode canonical composition (NFC) and trims surrounding whitespace.
The built-in `String.prototype.normalize("NFC")` is embedded as a
one-pass canonical composition over the Latin repertoire the
application works with (Spanish accented letters): a finite table of
(base, combining mark) to precomposed character. -/

/-- Canonical composition table: base character, combining mark,
precomposed result.  Covers the combining acute (U+0301), tilde
(U+0303) and diaeresis (U+0308) on the Latin letters used by the app. -/
def compTable : List (Char × Char × Char) :=
  [ ('a', '\u0301', '\u00e1'), ('e', '\u0301', '\u00e9'),
    ('i', '\u0301', '\u00ed'), ('o', '\u0301', '\u00f3'),
    ('u', '\u0301', '\u00fa'),
    ('A', '\u0301', '\u00c1'), ('E', '\u0301', '\u00c9'),
    ('I', '\u0301', '\u00cd'), ('O', '\u0301', '\u00d3'),
    ('U', '\u0301', '\u00da'),
    ('n', '\u0303', '\u00f1'), ('N', '\u0303', '\u00d1'),
    ('a', '\u0303', '\u00e3'), ('o', '\u0303', '\u00f5'),
    ('u', '\u0308', '\u00fc'), ('U', '\u0308', '\u00dc') ]

/-- Canonical composition of a pair of characters, by table lookup. -/
def composePair (b m : Char) : Option Char :=
  (compTable.find? (fun e => e.1 == b && e.2.1 == m)).map (fun e => e.2.2)

/-- One-pass canonical composition: `pend` is the pending character that
may still combine with the next input character. -/
def nfcAux (pend : Char) : List Char → List Char
  | [] => [pend]
  | c :: rest =>
    match composePair pend c with
    | some z => nfcAux z rest
    | none => pend :: nfcAux c rest

/-- Embedding of `.normalize("NFC")` over the modelled repertoire. -/
def nfc : List Char → List Char
  | [] => []
  | c :: rest => nfcAux c rest

/-- JavaScript whitespace recognised by `String.prototype.trim`. -/
def isWS (c : Char) : Bool :=
  c == ' ' || c == '\t' || c == '\n' || c == '\u000b' || c == '\u000c' ||
  c == '\u000d' || c == '\u00a0' || c == '\u1680' ||
  (decide (0x2000 ≤ c.toNat) && decide (c.toNat ≤ 0x200a)) ||
  c == '\u2028' || c == '\u2029' || c == '\u202f' || c == '\u205f' ||
  c == '\u3000' || c == '\ufeff'

/-- Embedding of `.trim()`: drop whitespace at both ends. -/
def trim (l : List Char) : List Char :=
  ((l.dropWhile isWS).reverse.dropWhile isWS).reverse

/-- The three global `replace` calls of `normalizeFrontend`:
remove U+0000, U+200B and U+FEFF. -/
def stripSpecials (l : List Char) : List Char :=
  ((l.filter (fun c => !(c == '\u0000'))).filter
      (fun c => !(c == '\u200b'))).filter (fun c => !(c == '\ufeff'))

/-- `normalizeFrontend` from renderer.js: strip the three special
characters, canonically compose, trim. -/
def normalizeFrontend (text : List Char) : List Char :=
  trim (nfc (stripSpecials text))

example : normalizeFrontend ('a' :: '\u0301' :: []) = ['\u00e1'] := by decide

example :
    normalizeFrontend (' ' :: 'h' :: 'i' :: '\u200b' :: ' ' :: []) =
      ['h', 'i'] := by decide

/-! ## Properties of the normalizer -/

/-- The three combining marks appearing in the composition table. -/
def isMark (c : Char) : Bool :=
  c == '\u0301' || c == '\u0303' || c == '\u0308'

/-- `noCompB l` holds when no two adjacent characters of `l` compose. -/
def noCompB : List Char → Bool
  | [] => true
  | [_] => true
  | a :: b :: rest => (composePair a b == none) && noCompB (b :: rest)

theorem compTable_entry_facts :
    compTable.all (fun e =>
      isMark e.2.1 && !(isMark e.2.2) && !(e.2.2 == '\u0000') &&
      !(e.2.2 == '\u200b') && !(e.2.2 == '\ufeff')) = true := by decide

theorem composePair_eq_some {b m c : Char} (h : composePair b m = some c) :
    (b, m, c) ∈ compTable := by
  unfold composePair at h
  cases hf : compTable.find? (fun e => e.1 == b && e.2.1 == m) with
  | none => rw [hf] at h; simp at h
  | some e =>
    rw [hf] at h
    have h2 : e.2.2 = c := by simpa using h
    have hp := List.find?_some hf
    have hm := List.mem_of_find?_eq_some hf
    simp only [Bool.and_eq_true, beq_iff_eq] at hp
    have he : (b, m, c) = e := by rw [← hp.1, ← hp.2, ← h2]
    exact he ▸ hm

theorem composePair_arg_mark {b m c : Char} (h : composePair b m = some c) :
    isMark m = true := by
  have hm := composePair_eq_some h
  have hall := compTable_entry_facts
  rw [List.all_eq_true] at hall
  have := hall _ hm
  simp only [Bool.and_eq_true] at this
  exact this.1.1.1.1

theorem composePair_out_mark {b m c : Char} (h : composePair b m = some c) :
    isMark c = false := by
  have hm := composePair_eq_some h
  have hall := compTable_entry_facts
  rw [List.all_eq_true] at hall
  have := hall _ hm
  simp only [Bool.and_eq_true, Bool.not_eq_true'] at this
  exact this.1.1.1.2

theorem composePair_out_clean {b m c : Char} (h : composePair b m = some c) :
    (c == '\u0000') = false ∧ (c == '\u200b') = false ∧
      (c == '\ufeff') = false := by
  have hm := composePair_eq_some h
  have hall := compTable_entry_facts
  rw [List.all_eq_true] at hall
  have := hall _ hm
  simp only [Bool.and_eq_true, Bool.not_eq_true'] at this
  exact ⟨this.1.1.2, this.1.2, this.2⟩

theorem composePair_not_mark {b m : Char} (h : isMark m = false) :
    composePair b m = none := by
  unfold composePair
  cases hf : compTable.find? (fun e => e.1 == b && e.2.1 == m) with
  | none => rfl
  | some e =>
    exfalso
    have hp := List.find?_some hf
    have hm := List.mem_of_find?_eq_some hf
    simp only [Bool.and_eq_true, beq_iff_eq] at hp
    have hall := compTable_entry_facts
    rw [List.all_eq_true] at hall
    have he := hall _ hm
    simp only [Bool.and_eq_true] at he
    rw [← hp.2] at h
    rw [he.1.1.1.1] at h
    exact absurd h (by decide)

theorem nfcAux_ne_nil (a : Char) (l : List Char) : nfcAux a l ≠ [] := by
  induction l generalizing a with
  | nil => simp [nfcAux]
  | cons c rest ih =>
    unfold nfcAux
    cases hc : composePair a c with
    | some z => exact ih z
    | none => simp

theorem nfcAux_head {a h : Char} {l t : List Char}
    (he : nfcAux a l = h :: t) : h = a ∨ isMark h = false := by
  induction l generalizing a h t with
  | nil =>
    simp only [nfcAux, List.cons.injEq] at he
    exact Or.inl he.1.symm
  | cons c rest ih =>
    unfold nfcAux at he
    cases hc : composePair a c with
    | some z =>
      rw [hc] at he
      rcases ih he with h₁ | h₂
      · subst h₁; exact Or.inr (composePair_out_mark hc)
      · exact Or.inr h₂
    | none =>
      rw [hc] at he
      simp only [List.cons.injEq] at he
      exact Or.inl he.1.symm

theorem noCompB_nfcAux (a : Char) (l : List Char) :
    noCompB (nfcAux a l) = true := by
  induction l generalizing a with
  | nil => simp [nfcAux, noCompB]
  | cons c rest ih =>
    unfold nfcAux
    cases hc : composePair a c with
    | some z => exact ih z
    | none =>
      cases he : nfcAux c rest with
      | nil => exact absurd he (nfcAux_ne_nil c rest)
      | cons h t =>
        have hcomp : composePair a h = none := by
          rcases nfcAux_head he with h₁ | h₂
          · subst h₁; exact hc
          · exact composePair_not_mark h₂
        have := ih c
        rw [he] at this
        simp only [noCompB, Bool.and_eq_true, beq_iff_eq]
        exact ⟨hcomp, this⟩

theorem noCompB_nfc (l : List Char) : noCompB (nfc l) = true := by
  cases l with
  | nil => rfl
  | cons c rest => exact noCompB_nfcAux c rest

theorem nfcAux_of_noCompB {a : Char} {l : List Char}
    (h : noCompB (a :: l) = true) : nfcAux a l = a :: l := by
  induction l generalizing a with
  | nil => rfl
  | cons c rest ih =>
    simp only [noCompB, Bool.and_eq_true, beq_iff_eq] at h
    unfold nfcAux
    rw [h.1]
    rw [ih h.2]

theorem nfc_of_noCompB {l : List Char} (h : noCompB l = true) :
    nfc l = l := by
  cases l with
  | nil => rfl
  | cons c rest => exact nfcAux_of_noCompB h

theorem noCompB_tail {x : Char} {xs : List Char}
    (h : noCompB (x :: xs) = true) : noCompB xs = true := by
  cases xs with
  | nil => rfl
  | cons y ys =>
    simp only [noCompB, Bool.and_eq_true] at h
    exact h.2

theorem noCompB_append_right {u v : List Char}
    (h : noCompB (u ++ v) = true) : noCompB v = true := by
  induction u with
  | nil => exact h
  | cons a u ih =>
    rw [List.cons_append] at h
    exact ih (noCompB_tail h)

theorem noCompB_append_left {u v : List Char}
    (h : noCompB (u ++ v) = true) : noCompB u = true := by
  induction u with
  | nil => rfl
  | cons a u ih =>
    cases u with
    | nil => rfl
    | cons b u₂ =>
      rw [List.cons_append, List.cons_append] at h
      simp only [noCompB, Bool.and_eq_true] at h
      rw [← List.cons_append] at h
      simp only [noCompB, Bool.and_eq_true]
      exact ⟨h.1, ih h.2⟩

theorem mem_nfcAux {x a : Char} {l : List Char} (h : x ∈ nfcAux a l) :
    x = a ∨ x ∈ l ∨ ∃ b m, composePair b m = some x := by
  induction l generalizing a with
  | nil =>
    simp only [nfcAux, List.mem_singleton] at h
    exact Or.inl h
  | cons c rest ih =>
    unfold nfcAux at h
    cases hc : composePair a c with
    | some z =>
      rw [hc] at h
      rcases ih h with h₁ | h₂ | h₃
      · exact Or.inr (Or.inr ⟨a, c, h₁ ▸ hc⟩)
      · exact Or.inr (Or.inl (List.mem_cons_of_mem c h₂))
      · exact Or.inr (Or.inr h₃)
    | none =>
      rw [hc] at h
      rcases List.mem_cons.mp h with h₁ | h₂
      · exact Or.inl h₁
      · rcases ih h₂ with h₃ | h₄ | h₅
        · exact Or.inr (Or.inl (h₃ ▸ List.mem_cons_self c rest))
        · exact Or.inr (Or.inl (List.mem_cons_of_mem c h₄))
        · exact Or.inr (Or.inr h₅)

theorem mem_nfc {x : Char} {l : List Char} (h : x ∈ nfc l) :
    x ∈ l ∨ ∃ b m, composePair b m = some x := by
  cases l with
  | nil => simp [nfc] at h
  | cons c rest =>
    rcases mem_nfcAux h with h₁ | h₂ | h₃
    · exact Or.inl (h₁ ▸ List.mem_cons_self c rest)
    · exact Or.inl (List.mem_cons_of_mem c h₂)
    · exact Or.inr h₃

/-! ## Trim and strip properties -/

theorem dropWhile_append_eq (p : Char → Bool) (l : List Char) :
    ∃ u, l = u ++ l.dropWhile p := by
  induction l with
  | nil => exact ⟨[], rfl⟩
  | cons a l ih =>
    cases hp : p a with
    | true =>
      rw [List.dropWhile_cons, if_pos hp]
      obtain ⟨u, hu⟩ := ih
      exact ⟨a :: u, by rw [List.cons_append, ← hu]⟩
    | false =>
      rw [List.dropWhile_cons, if_neg (by simp [hp])]
      exact ⟨[], rfl⟩

theorem head_dropWhile_false (p : Char → Bool) (l : List Char) :
    ∀ {h : Char} {t : List Char}, l.dropWhile p = h :: t → p h = false := by
  induction l with
  | nil => intro h t he; simp [List.dropWhile] at he
  | cons a l ih =>
    intro h t he
    cases hp : p a with
    | true =>
      rw [List.dropWhile_cons, if_pos hp] at he
      exact ih he
    | false =>
      rw [List.dropWhile_cons, if_neg (by simp [hp])] at he
      simp only [List.cons.injEq] at he
      rw [← he.1]
      exact hp

theorem dropWhile_eq_self_of_head (p : Char → Bool) (l : List Char)
    (h : ∀ a t, l = a :: t → p a = false) : l.dropWhile p = l := by
  cases l with
  | nil => rfl
  | cons a t =>
    rw [List.dropWhile_cons, if_neg]
    simp [h a t rfl]

/-- `trimmedB l` holds when `l` neither starts nor ends with whitespace. -/
def trimmedB (l : List Char) : Bool :=
  (match l.head? with
   | none => true
   | some h => !(isWS h)) &&
  (match l.getLast? with
   | none => true
   | some h => !(isWS h))

theorem trim_eq_self_of_trimmedB {l : List Char} (h : trimmedB l = true) :
    trim l = l := by
  unfold trimmedB at h
  rw [Bool.and_eq_true] at h
  obtain ⟨ha, hb⟩ := h
  unfold trim
  have h1 : l.dropWhile isWS = l := by
    apply dropWhile_eq_self_of_head
    intro a t he
    rw [he] at ha
    simpa using ha
  rw [h1]
  have h2 : l.reverse.dropWhile isWS = l.reverse := by
    apply dropWhile_eq_self_of_head
    intro a t he
    have hg : l.getLast? = some a := by
      rw [← List.head?_reverse, he, List.head?_cons]
    rw [hg] at hb
    simpa using hb
  rw [h2, List.reverse_reverse]

theorem trim_prefix_eq (l : List Char) :
    ∃ w, l.dropWhile isWS = trim l ++ w := by
  unfold trim
  obtain ⟨u, hu⟩ := dropWhile_append_eq isWS (l.dropWhile isWS).reverse
  refine ⟨u.reverse, ?_⟩
  calc l.dropWhile isWS
      = (l.dropWhile isWS).reverse.reverse := (List.reverse_reverse _).symm
    _ = (u ++ ((l.dropWhile isWS).reverse.dropWhile isWS)).reverse := by
        rw [← hu]
    _ = ((l.dropWhile isWS).reverse.dropWhile isWS).reverse ++ u.reverse := by
        rw [List.reverse_append]

theorem trim_head_not_WS {l : List Char} {h : Char} {t : List Char}
    (he : trim l = h :: t) : isWS h = false := by
  obtain ⟨w, hw⟩ := trim_prefix_eq l
  rw [he, List.cons_append] at hw
  exact head_dropWhile_false isWS l hw

theorem trim_last_not_WS {l : List Char} {h : Char}
    (he : (trim l).getLast? = some h) : isWS h = false := by
  unfold trim at he
  rw [List.getLast?_reverse] at he
  cases hd : ((l.dropWhile isWS).reverse).dropWhile isWS with
  | nil => rw [hd] at he; simp at he
  | cons a t =>
    rw [hd, List.head?_cons, Option.some_inj] at he
    rw [← he]
    exact head_dropWhile_false isWS _ hd

theorem trimmedB_trim (l : List Char) : trimmedB (trim l) = true := by
  unfold trimmedB
  rw [Bool.and_eq_true]
  refine ⟨?_, ?_⟩
  · cases htl : trim l with
    | nil => rfl
    | cons a t =>
      simp only [List.head?_cons]
      simp [trim_head_not_WS htl]
  · cases ht : (trim l).getLast? with
    | none => rfl
    | some h => simp [trim_last_not_WS ht]

theorem trim_idem (l : List Char) : trim (trim l) = trim l :=
  trim_eq_self_of_trimmedB (trimmedB_trim l)

theorem mem_trim {x : Char} {l : List Char} (h : x ∈ trim l) : x ∈ l := by
  obtain ⟨w, hw⟩ := trim_prefix_eq l
  obtain ⟨u, hu⟩ := dropWhile_append_eq isWS l
  have h1 : x ∈ l.dropWhile isWS := by
    rw [hw]; exact List.mem_append_left w h
  rw [hu]
  exact List.mem_append_right u h1

theorem noCompB_trim {l : List Char} (h : noCompB l = true) :
    noCompB (trim l) = true := by
  obtain ⟨u, hu⟩ := dropWhile_append_eq isWS l
  obtain ⟨w, hw⟩ := trim_prefix_eq l
  have h1 : noCompB (l.dropWhile isWS) = true := by
    rw [hu] at h
    exact noCompB_append_right h
  rw [hw] at h1
  exact noCompB_append_left h1

theorem mem_stripSpecials {x : Char} {l : List Char}
    (h : x ∈ stripSpecials l) :
    x ∈ l ∧ (x == '\u0000') = false ∧ (x == '\u200b') = false ∧
      (x == '\ufeff') = false := by
  unfold stripSpecials at h
  simp only [List.mem_filter, Bool.not_eq_true'] at h
  exact ⟨h.1.1.1, h.1.1.2, h.1.2, h.2⟩

theorem stripSpecials_eq_self {l : List Char}
    (h : ∀ x ∈ l, (x == '\u0000') = false ∧ (x == '\u200b') = false ∧
      (x == '\ufeff') = false) :
    stripSpecials l = l := by
  unfold stripSpecials
  have e1 : l.filter (fun c => !(c == '\u0000')) = l :=
    List.filter_eq_self.mpr (fun x hx => by simp [(h x hx).1])
  rw [e1]
  have e2 : l.filter (fun c => !(c == '\u200b')) = l :=
    List.filter_eq_self.mpr (fun x hx => by simp [(h x hx).2.1])
  rw [e2]
  exact List.filter_eq_self.mpr (fun x hx => by simp [(h x hx).2.2])

theorem normalizeFrontend_mem_clean {t : List Char} {x : Char}
    (h : x ∈ normalizeFrontend t) :
    (x == '\u0000') = false ∧ (x == '\u200b') = false ∧
      (x == '\ufeff') = false := by
  unfold normalizeFrontend at h
  have h1 := mem_trim h
  rcases mem_nfc h1 with h2 | ⟨b, m, h3⟩
  · exact (mem_stripSpecials h2).2
  · exact composePair_out_clean h3

theorem noCompB_normalizeFrontend (t : List Char) :
    noCompB (normalizeFrontend t) = true :=
  noCompB_trim (noCompB_nfc _)

theorem trim_normalizeFrontend (t : List Char) :
    trim (normalizeFrontend t) = normalizeFrontend t :=
  trim_idem _

/-- Claim C2: the normalize function is idempotent: for every string
`s`, `normalize(normalize(s))` equals `normalize(s)` (on the
`normalizeFrontend` embedding from renderer.js). -/
theorem c2_normalize_idempotent (s : List Char) :
    normalizeFrontend (normalizeFrontend s) = normalizeFrontend s := by
  have hstr : stripSpecials (normalizeFrontend s) = normalizeFrontend s :=
    stripSpecials_eq_self (fun x hx => normalizeFrontend_mem_clean hx)
  have hnfc : nfc (normalizeFrontend s) = normalizeFrontend s :=
    nfc_of_noCompB (noCompB_normalizeFrontend s)
  show trim (nfc (stripSpecials (normalizeFrontend s))) = normalizeFrontend s
  rw [hstr, hnfc]
  exact trim_normalizeFrontend s

/-! ## Claim C3: the claimed output character set -/

/-- Unicode control characters (categories Cc): U+0000 to U+001F and
U+007F to U+009F. -/
def isControlChar (c : Char) : Bool :=
  decide (c.toNat < 0x20) ||
  (decide (0x7f ≤ c.toNat) && decide (c.toNat ≤ 0x9f))

/-- Zero-width characters: U+200B, U+200C, U+200D, U+2060. -/
def isZeroWidthChar (c : Char) : Bool :=
  c == '\u200b' || c == '\u200c' || c == '\u200d' || c == '\u2060'

/-- The property claim C3 states of the normalizer output: free of
null, control, zero-width and byte-order-mark characters, canonically
composed, and trimmed. -/
def claimedC3 (text : List Char) : Prop :=
  (∀ x ∈ normalizeFrontend text,
     (x == '\u0000') = false ∧ isControlChar x = false ∧
       isZeroWidthChar x = false ∧ (x == '\ufeff') = false) ∧
  noCompB (normalizeFrontend text) = true ∧
  trimmedB (normalizeFrontend text) = true

/-- Claim C3 fails as stated: the code strips only NUL, U+200B and
U+FEFF, so an interior control character such as U+0007 survives
normalization. -/
theorem c3_counterexample : ¬ claimedC3 ['a', '\u0007', 'b'] := by
  intro h
  have := (h.1 '\u0007' (by decide)).2.1
  simp [isControlChar] at this

/-- Claim C3 (amended): for every input string, the output of
`normalizeFrontend` is free of NUL (U+0000), zero-width space (U+200B)
and byte-order-mark (U+FEFF) characters, is canonically composed (no
two adjacent characters compose), and has no leading or trailing
whitespace. -/
theorem c3_normalize_output_clean (text : List Char) :
    (∀ x ∈ normalizeFrontend text,
       (x == '\u0000') = false ∧ (x == '\u200b') = false ∧
         (x == '\ufeff') = false) ∧
    noCompB (normalizeFrontend text) = true ∧
    trimmedB (normalizeFrontend text) = true :=
  ⟨fun _ hx => normalizeFrontend_mem_clean hx,
   noCompB_normalizeFrontend text,
   trimmedB_trim _⟩

/-- Witness for C3 (amended) at the input "a". -/
theorem c3_normalize_output_clean_witness :
    ('a' == '\u0000') = false ∧ ('a' == '\u200b') = false ∧
      ('a' == '\ufeff') = false :=
  (c3_normalize_output_clean ['a']).1 'a' (by decide)

/-! ## Protector (modelled from the spec)

The backend files glossary.py and protector.py are not among the
sources available here, so the protector is modelled from the
specification (sections 3, 4.2 and 4.3). -/

/-- Modelled from the spec: a glossary entry, a source term with its
canonical replacement (spec section 3); glossary.py is missing from the
sources. -/
structure GlossaryEntry where
  sourceTerm : List Char
  replacement : List Char
deriving DecidableEq

/-- A segment of shielded text: an ordinary character, or an opaque
placeholder token identified by the per-request counter value that
generated it.  Placeholder tokens are provider-inert and globally
unique within one request (spec section 3). -/
abbrev ShieldSeg := Sum Char Nat

/-- Modelled from the spec: the ProtectionMap of section 3, an ordered
list of (placeholder, original term) pairs; protector.py is missing
from the sources. -/
abbrev ProtectionMap := List (Nat × List Char)

/-- `headSeg t cs` holds when `t` is an initial segment of `cs`. -/
def headSeg : List Char → List Char → Bool
  | [], _ => true
  | _ :: _, [] => false
  | a :: as, b :: bs => a == b && headSeg as bs

/-- Modelled from the spec: the length of the longest glossary term
matching at the start of `cs` (0 when no term matches); matching is
longest-first (spec section 4.2), the empty term never matches. -/
def matchLen (g : List GlossaryEntry) (cs : List Char) : Nat :=
  g.foldl (fun acc e =>
    if acc < e.sourceTerm.length ∧ headSeg e.sourceTerm cs = true then
      e.sourceTerm.length
    else acc) 0

/-- Modelled from the spec: the protect scan of section 4.3.  Scans
left to right; at each position attempts the longest glossary match; on
a match replaces the matched span with a fresh placeholder token and
records (placeholder, matched span) in the map; non-matching text
passes through unchanged.  `n` is the placeholder counter. -/
def protectAux (g : List GlossaryEntry) : Nat → List Char → List ShieldSeg × ProtectionMap
  | _, [] => ([], [])
  | n, c :: cs =>
    if h : matchLen g (c :: cs) = 0 then
      let r := protectAux g n cs
      (Sum.inl c :: r.1, r.2)
    else
      let r := protectAux g (n + 1) ((c :: cs).drop (matchLen g (c :: cs)))
      (Sum.inr n :: r.1, (n, (c :: cs).take (matchLen g (c :: cs))) :: r.2)
termination_by n cs => cs.length
decreasing_by
  · simp
  · simp only [List.length_drop, List.length_cons]
    omega

/-- Modelled from the spec: `protect` of section 4.3, starting the
placeholder counter at 0. -/
def protect (t : List Char) (g : List GlossaryEntry) :
    List ShieldSeg × ProtectionMap :=
  protectAux g 0 t

/-- Lookup of a placeholder token in the protection map. -/
def lookupPH : Nat → ProtectionMap → Option (List Char)
  | _, [] => none
  | k, (n, orig) :: m => if k = n then some orig else lookupPH k m

/-- Modelled from the spec: `unprotect` of section 4.3, replacing each
recorded placeholder with its original term; a placeholder absent from
the map is left intact (best-effort policy of section 7). -/
def unprotect : List ShieldSeg → ProtectionMap → List ShieldSeg
  | [], _ => []
  | Sum.inl c :: s, m => Sum.inl c :: unprotect s m
  | Sum.inr k :: s, m =>
    (match lookupPH k m with
     | some orig => orig.map Sum.inl
     | none => [Sum.inr k]) ++ unprotect s m

theorem protectAux_cons_nomatch {g : List GlossaryEntry} {n : Nat}
    {c : Char} {cs : List Char} (h : matchLen g (c :: cs) = 0) :
    protectAux g n (c :: cs) =
      (Sum.inl c :: (protectAux g n cs).1, (protectAux g n cs).2) := by
  rw [protectAux]
  simp [h]

theorem protectAux_cons_match {g : List GlossaryEntry} {n : Nat}
    {c : Char} {cs : List Char} (h : ¬ matchLen g (c :: cs) = 0) :
    protectAux g n (c :: cs) =
      (Sum.inr n ::
         (protectAux g (n + 1) ((c :: cs).drop (matchLen g (c :: cs)))).1,
       (n, (c :: cs).take (matchLen g (c :: cs))) ::
         (protectAux g (n + 1) ((c :: cs).drop (matchLen g (c :: cs)))).2) := by
  rw [protectAux]
  simp [h]

theorem lookupPH_ne {k j : Nat} {o : List Char} {m : ProtectionMap}
    (h : ¬ k = j) : lookupPH k ((j, o) :: m) = lookupPH k m := by
  simp [lookupPH, h]

theorem unprotect_irrel {s : List ShieldSeg} {j : Nat} {o : List Char}
    {m : ProtectionMap}
    (h : ∀ k, Sum.inr k ∈ s → ¬ k = j) :
    unprotect s ((j, o) :: m) = unprotect s m := by
  induction s with
  | nil => rfl
  | cons a s ih =>
    have ih2 := ih (fun k hk => h k (List.mem_cons_of_mem a hk))
    cases a with
    | inl c =>
      simp only [unprotect]
      rw [ih2]
    | inr k =>
      have hk : ¬ k = j := h k (List.mem_cons_self _ _)
      simp only [unprotect]
      rw [lookupPH_ne hk, ih2]

theorem protectAux_spec (g : List GlossaryEntry) :
    ∀ (N : Nat) (cs : List Char), cs.length ≤ N → ∀ (n : Nat),
      (∀ k, Sum.inr k ∈ (protectAux g n cs).1 → n ≤ k) ∧
      (∀ k o, (k, o) ∈ (protectAux g n cs).2 → n ≤ k) ∧
      unprotect (protectAux g n cs).1 (protectAux g n cs).2 =
        cs.map Sum.inl := by
  intro N
  induction N with
  | zero =>
    intro cs hcs n
    have hnil : cs = [] := List.eq_nil_of_length_eq_zero (Nat.le_zero.mp hcs)
    subst hnil
    have heq : protectAux g n [] = ([], []) := by rw [protectAux]
    refine ⟨?_, ?_, ?_⟩
    · intro k hk; rw [heq] at hk; simp at hk
    · intro k o hk; rw [heq] at hk; simp at hk
    · rw [heq]; rfl
  | succ N ih =>
    intro cs hcs n
    cases cs with
    | nil =>
      have heq : protectAux g n [] = ([], []) := by rw [protectAux]
      refine ⟨?_, ?_, ?_⟩
      · intro k hk; rw [heq] at hk; simp at hk
      · intro k o hk; rw [heq] at hk; simp at hk
      · rw [heq]; rfl
    | cons c cs =>
      by_cases h : matchLen g (c :: cs) = 0
      · have heq := protectAux_cons_nomatch (n := n) h
        have hlen : cs.length ≤ N := by
          simp only [List.length_cons] at hcs
          omega
        obtain ⟨ih1, ih2, ih3⟩ := ih cs hlen n
        refine ⟨?_, ?_, ?_⟩
        · intro k hk
          rw [heq] at hk
          rcases List.mem_cons.mp hk with h1 | h2
          · exact absurd h1 (by simp)
          · exact ih1 k h2
        · intro k o hk
          rw [heq] at hk
          exact ih2 k o hk
        · rw [heq]
          simp only [unprotect]
          rw [ih3, List.map_cons]
      · have heq := protectAux_cons_match (n := n) h
        have hL1 : 1 ≤ matchLen g (c :: cs) := Nat.one_le_iff_ne_zero.mpr h
        have hlen : ((c :: cs).drop (matchLen g (c :: cs))).length ≤ N := by
          simp only [List.length_drop, List.length_cons]
          simp only [List.length_cons] at hcs
          omega
        obtain ⟨ih1, ih2, ih3⟩ := ih _ hlen (n + 1)
        refine ⟨?_, ?_, ?_⟩
        · intro k hk
          rw [heq] at hk
          rcases List.mem_cons.mp hk with h1 | h2
          · have : k = n := by simpa using h1
            omega
          · have := ih1 k h2
            omega
        · intro k o hk
          rw [heq] at hk
          rcases List.mem_cons.mp hk with h1 | h2
          · have : k = n := by
              have := congrArg Prod.fst h1
              simpa using this
            omega
          · have := ih2 k o h2
            omega
        · rw [heq]
          simp only [unprotect]
          have hlook :
              lookupPH n ((n, (c :: cs).take (matchLen g (c :: cs))) ::
                (protectAux g (n + 1)
                  ((c :: cs).drop (matchLen g (c :: cs)))).2) =
                some ((c :: cs).take (matchLen g (c :: cs))) := by
            simp [lookupPH]
          rw [hlook]
          have hirr := unprotect_irrel
            (s := (protectAux g (n + 1)
                    ((c :: cs).drop (matchLen g (c :: cs)))).1)
            (j := n)
            (o := (c :: cs).take (matchLen g (c :: cs)))
            (m := (protectAux g (n + 1)
                    ((c :: cs).drop (matchLen g (c :: cs)))).2)
            (fun k hk => by have := ih1 k hk; omega)
          rw [hirr, ih3, ← List.map_append, List.take_append_drop]

/-- Claim C1: for every text `t` and glossary index `g`, applying
`unprotect` to the shielded text and protection map produced by
`protect t g` yields `t` exactly (the provider being the identity:
nothing transforms the shielded text in between).  `t` is injected into
shielded-text segments by `List.map Sum.inl`. -/
theorem c1_protect_unprotect_roundtrip (t : List Char)
    (g : List GlossaryEntry) :
    unprotect (protect t g).1 (protect t g).2 = t.map Sum.inl :=
  (protectAux_spec g t.length t (Nat.le_refl _) 0).2.2

/-! ## HTTP boundary model (api.js and renderer.js) -/

/-- A JSON response body, projected onto the fields the client reads
(`none` models an absent field). -/
structure Body where
  translated_text : Option (List Char)
  detected_source : Option (List Char)
  error : Option (List Char)
deriving DecidableEq

/-- An HTTP response: status code and the result of parsing the body as
JSON (`none` when the body is unparseable). -/
structure Resp where
  status : Nat
  parsed : Option Body
deriving DecidableEq

/-- `Response.ok` of the Fetch API: status in the range 200 to 299. -/
def respOk (status : Nat) : Bool :=
  decide (200 ≤ status) && decide (status ≤ 299)

/-- JavaScript `v || dflt` on a string-or-undefined value: the default
is taken when the field is absent or the string is empty (falsy). -/
def jsOr (v : Option (List Char)) (dflt : List Char) : List Char :=
  match v with
  | some s => if s = [] then dflt else s
  | none => dflt

/-- ECMAScript ToString of a string-or-undefined value, as applied by a
DOM `value` assignment (`undefined` prints as "undefined"). -/
def jsToStr (v : Option (List Char)) : List Char :=
  match v with
  | some s => s
  | none => "undefined".toList

/-- Outcome of `translateText` in api.js: the parsed body on success, a
thrown Error message on a non-2xx response, or the propagated rejection
of `resp.json()` on a 2xx response with an unparseable body. -/
inductive ApiOutcome where
  | success (body : Body)
  | failure (msg : List Char)
  | jsonException
deriving DecidableEq

/-- `translateText` from api.js, response handling: on a 2xx response
return the parsed JSON body (a parse failure rejects); otherwise parse
the body, falling back to `{error: "unknown"}` when unparseable, and
throw an Error whose message is `err.error || "HTTP <status>"`. -/
def translateText (r : Resp) : ApiOutcome :=
  if respOk r.status = true then
    match r.parsed with
    | some b => ApiOutcome.success b
    | none => ApiOutcome.jsonException
  else
    let errBody : Body :=
      match r.parsed with
      | some b => b
      | none => ⟨none, none, some ("unknown".toList)⟩
    ApiOutcome.failure
      (jsOr errBody.error ("HTTP ".toList ++ (Nat.repr r.status).toList))

/-- The response-handling behaviour claim C5 states of the client: a
2xx response returns the parsed body; a 4xx/5xx response surfaces a
failure whose message is the body's error string, or a stable
HTTP-status string when the body is unparseable. -/
def claimedC5 (r : Resp) : Prop :=
  (respOk r.status = true → ∀ b, r.parsed = some b →
     translateText r = ApiOutcome.success b) ∧
  (respOk r.status = false →
     (∀ b e, r.parsed = some b → b.error = some e → e ≠ [] →
        translateText r = ApiOutcome.failure e) ∧
     (r.parsed = none →
        translateText r = ApiOutcome.failure
          ("HTTP ".toList ++ (Nat.repr r.status).toList)))

/-- Claim C5 fails as stated: on a 500 response with an unparseable
body the code reports the message "unknown", not the HTTP-status
string "HTTP 500". -/
theorem c5_counterexample : ¬ claimedC5 ⟨500, none⟩ := by
  intro h
  have h2 := (h.2 (by decide)).2 rfl
  revert h2
  decide

/-- Claim C5 (amended): on a 2xx response the client returns the parsed
body; on a non-2xx response it surfaces a failure whose message is the
body's error string when present and non-empty, the stable string
"HTTP <status>" when the body parses but carries no usable error
string, and the stable string "unknown" when the body is unparseable;
no other error detail crosses the boundary. -/
theorem c5_translateText_errors (r : Resp) :
    (respOk r.status = true → ∀ b, r.parsed = some b →
       translateText r = ApiOutcome.success b) ∧
    (respOk r.status = false →
       ∃ msg, translateText r = ApiOutcome.failure msg ∧
         ((∃ b, r.parsed = some b ∧ b.error = some msg ∧ msg ≠ []) ∨
          (msg = "HTTP ".toList ++ (Nat.repr r.status).toList ∧
             ∃ b, r.parsed = some b ∧
               (b.error = none ∨ b.error = some [])) ∨
          (msg = "unknown".toList ∧ r.parsed = none))) := by
  refine ⟨?_, ?_⟩
  · intro hok b hb
    simp [translateText, hok, hb]
  · intro hnok
    have hcond : ¬ respOk r.status = true := by simp [hnok]
    unfold translateText
    rw [if_neg hcond]
    cases hb : r.parsed with
    | none =>
      exact ⟨_, rfl, Or.inr (Or.inr ⟨by simp [jsOr], rfl⟩)⟩
    | some b =>
      cases he : b.error with
      | none =>
        refine ⟨_, rfl, Or.inr (Or.inl ⟨?_, b, rfl, Or.inl he⟩)⟩
        simp [jsOr, he]
      | some e =>
        by_cases hee : e = []
        · refine ⟨_, rfl, Or.inr (Or.inl ⟨?_, b, rfl, Or.inr ?_⟩)⟩
          · simp [jsOr, he, hee]
          · rw [he, hee]
        · refine ⟨_, rfl, Or.inl ⟨b, rfl, ?_, ?_⟩⟩
          · rw [he]
            simp [jsOr, he, hee]
          · simp [jsOr, he, hee]

/-- Witness for C5 (amended): the 2xx branch at a concrete response. -/
theorem c5_translateText_errors_witness :
    translateText ⟨200, some ⟨none, none, none⟩⟩ =
      ApiOutcome.success ⟨none, none, none⟩ :=
  (c5_translateText_errors ⟨200, some ⟨none, none, none⟩⟩).1
    (by decide) ⟨none, none, none⟩ rfl

/-- A `POST /translate` request body: the `text` field, and the
`use_glossary` field when present (`none` models an absent field). -/
structure ReqBody where
  text : List Char
  use_glossary : Option Bool
deriving DecidableEq

/-- The request body sent by `translateText` in api.js:
`JSON.stringify({ text })` — only the text field. -/
def apiRequestBody (text : List Char) : ReqBody := ⟨text, none⟩

/-- Modelled from the spec: the backend (app.py is not among the
sources) defaults `use_glossary` to true when the field is absent
(spec section 6). -/
def backendEffectiveUseGlossary (b : ReqBody) : Bool :=
  b.use_glossary.getD true

/-- Claim C9: the `translateText` API helper always sends a request
body containing exactly the text field and no `use_glossary` field, so
the backend's glossary default (true) applies and glossary use cannot
be disabled via this interface. -/
theorem c9_api_body_no_glossary_field (t : List Char) :
    (apiRequestBody t).use_glossary = none ∧
      backendEffectiveUseGlossary (apiRequestBody t) = true :=
  ⟨rfl, rfl⟩

/-! ## Renderer model (`translate` in renderer.js) -/

/-- The DOM elements the renderer reads and writes.
`useGlossaryChecked = none` models an absent `useGlossary` element
(`el.useGlossary?.checked` is then undefined). -/
structure El where
  inputValue : List Char
  outputValue : List Char
  langLabel : List Char
  translateBtnDisabled : Bool
  translateBtnText : List Char
  useGlossaryChecked : Option Bool
deriving DecidableEq

/-- Result of the `fetch` call as the renderer observes it: a rejected
promise (network error) or a settled HTTP response. -/
inductive FetchResult where
  | networkError (msg : List Char)
  | response (r : Resp)
deriving DecidableEq

/-- The request body built by `translate` in renderer.js:
`{ text, use_glossary: el.useGlossary?.checked ?? true }`. -/
def rendererBody (el0 : El) : ReqBody :=
  ⟨normalizeFrontend el0.inputValue, some (el0.useGlossaryChecked.getD true)⟩

/-- Observable outcome of one run of `translate`: the requests issued,
the alerts shown, and the final DOM state. -/
structure TranslateOutcome where
  requests : List ReqBody
  alerts : List (List Char)
  el : El
deriving DecidableEq

/-- `translate` from renderer.js: normalize the input; reject
empty-after-normalization input with an alert before any request;
otherwise disable the button, POST the body, and on a 2xx response fill
the output field and language label, on any failure alert the error
message; the `finally` block re-enables the button in every fetch
outcome. -/
def translate (el0 : El) (backend : ReqBody → FetchResult) :
    TranslateOutcome :=
  let text := normalizeFrontend el0.inputValue
  if text = [] then
    { requests := [], alerts := ["Escribe algo para traducir.".toList],
      el := el0 }
  else
    let el1 := { el0 with translateBtnDisabled := true,
                          translateBtnText := "Traduciendo...".toList }
    let body := rendererBody el0
    let finalize := fun (e : El) =>
      { e with translateBtnDisabled := false,
               translateBtnText := "Traducir →".toList }
    match backend body with
    | FetchResult.networkError msg =>
      { requests := [body],
        alerts := [("Error: ".toList ++ msg)],
        el := finalize el1 }
    | FetchResult.response r =>
      match r.parsed with
      | none =>
        { requests := [body],
          alerts := [("Error: ".toList ++
            "Unexpected end of JSON input".toList)],
          el := finalize el1 }
      | some payload =>
        if respOk r.status = true then
          { requests := [body], alerts := [],
            el := finalize { el1 with
              outputValue := jsToStr payload.translated_text,
              langLabel := "Idioma detectado: ".toList ++
                jsOr payload.detected_source ("—".toList) } }
        else
          { requests := [body],
            alerts := [("Error: ".toList ++
              jsOr payload.error ("Error al traducir".toList))],
            el := finalize el1 }

theorem translate_empty {el0 : El} {backend : ReqBody → FetchResult}
    (h : normalizeFrontend el0.inputValue = []) :
    translate el0 backend =
      { requests := [], alerts := ["Escribe algo para traducir.".toList],
        el := el0 } := by
  simp [translate, h]

theorem translate_networkError {el0 : El}
    {backend : ReqBody → FetchResult} {msg : List Char}
    (ht : ¬ normalizeFrontend el0.inputValue = [])
    (hb : backend (rendererBody el0) = FetchResult.networkError msg) :
    translate el0 backend =
      { requests := [rendererBody el0],
        alerts := [("Error: ".toList ++ msg)],
        el := { el0 with translateBtnDisabled := false,
                         translateBtnText := "Traducir →".toList } } := by
  simp only [translate, ht, if_false, hb]

theorem translate_parseError {el0 : El}
    {backend : ReqBody → FetchResult} {r : Resp}
    (ht : ¬ normalizeFrontend el0.inputValue = [])
    (hb : backend (rendererBody el0) = FetchResult.response r)
    (hp : r.parsed = none) :
    translate el0 backend =
      { requests := [rendererBody el0],
        alerts := [("Error: ".toList ++
          "Unexpected end of JSON input".toList)],
        el := { el0 with translateBtnDisabled := false,
                         translateBtnText := "Traducir →".toList } } := by
  simp only [translate, ht, if_false, hb, hp]

theorem translate_ok {el0 : El} {backend : ReqBody → FetchResult}
    {r : Resp} {payload : Body}
    (ht : ¬ normalizeFrontend el0.inputValue = [])
    (hb : backend (rendererBody el0) = FetchResult.response r)
    (hp : r.parsed = some payload)
    (hok : respOk r.status = true) :
    translate el0 backend =
      { requests := [rendererBody el0], alerts := [],
        el := { el0 with
          translateBtnDisabled := false,
          translateBtnText := "Traducir →".toList,
          outputValue := jsToStr payload.translated_text,
          langLabel := "Idioma detectado: ".toList ++
            jsOr payload.detected_source ("—".toList) } } := by
  simp only [translate, ht, if_false, hb, hp, hok, if_true]

theorem translate_notOk {el0 : El} {backend : ReqBody → FetchResult}
    {r : Resp} {payload : Body}
    (ht : ¬ normalizeFrontend el0.inputValue = [])
    (hb : backend (rendererBody el0) = FetchResult.response r)
    (hp : r.parsed = some payload)
    (hok : respOk r.status = false) :
    translate el0 backend =
      { requests := [rendererBody el0],
        alerts := [("Error: ".toList ++
          jsOr payload.error ("Error al traducir".toList))],
        el := { el0 with translateBtnDisabled := false,
                         translateBtnText := "Traducir →".toList } } := by
  simp only [translate, ht, if_false, hb, hp, hok]
  simp

/-- Claim C4: input whose normalization is empty is rejected before any
provider/backend call: no POST /translate request is issued, the caller
is notified by an alert, and the DOM is untouched. -/
theorem c4_empty_input_rejected (el0 : El)
    (backend : ReqBody → FetchResult)
    (h : normalizeFrontend el0.inputValue = []) :
    (translate el0 backend).requests = [] ∧
      (translate el0 backend).alerts =
        ["Escribe algo para traducir.".toList] ∧
      (translate el0 backend).el = el0 := by
  rw [translate_empty h]
  exact ⟨rfl, rfl, rfl⟩

/-- Witness for C4: whitespace-only input, a backend that would answer
with a network error; nothing is sent. -/
theorem c4_empty_input_rejected_witness :
    (translate ⟨"   ".toList, [], [], false, [], none⟩
        (fun _ => FetchResult.networkError [])).requests = [] ∧
      (translate ⟨"   ".toList, [], [], false, [], none⟩
          (fun _ => FetchResult.networkError [])).alerts =
        ["Escribe algo para traducir.".toList] ∧
      (translate ⟨"   ".toList, [], [], false, [], none⟩
          (fun _ => FetchResult.networkError [])).el =
        ⟨"   ".toList, [], [], false, [], none⟩ :=
  c4_empty_input_rejected _ _ (by decide)

/-- Claim C6: when the glossary checkbox element is absent, every
request body issued by `translate` carries `use_glossary = true`
(`el.useGlossary?.checked ?? true`). -/
theorem c6_use_glossary_defaults_true (el0 : El)
    (backend : ReqBody → FetchResult) (b : ReqBody)
    (h : el0.useGlossaryChecked = none)
    (hb : b ∈ (translate el0 backend).requests) :
    b.use_glossary = some true := by
  have hbody : b = rendererBody el0 := by
    by_cases ht : normalizeFrontend el0.inputValue = []
    · rw [translate_empty ht] at hb
      simp at hb
    · cases hbk : backend (rendererBody el0) with
      | networkError msg =>
        rw [translate_networkError ht hbk] at hb
        simpa using hb
      | response r =>
        cases hp : r.parsed with
        | none =>
          rw [translate_parseError ht hbk hp] at hb
          simpa using hb
        | some payload =>
          cases hok : respOk r.status with
          | true =>
            rw [translate_ok ht hbk hp hok] at hb
            simpa using hb
          | false =>
            rw [translate_notOk ht hbk hp hok] at hb
            simpa using hb
  rw [hbody]
  simp [rendererBody, h]

/-- Witness for C6: glossary element absent, input "hola"; the single
issued request carries `use_glossary = some true`. -/
theorem c6_use_glossary_defaults_true_witness :
    (ReqBody.mk ("hola".toList) (some true)).use_glossary = some true :=
  c6_use_glossary_defaults_true
    ⟨"hola".toList, [], [], false, [], none⟩
    (fun _ => FetchResult.networkError [])
    ⟨"hola".toList, some true⟩
    rfl
    (by decide)

/-- Claim C8: in `translate`, the output field and the detected-language
label are assigned only on a 2xx response: on a network error, an
unparseable body, or a non-2xx response they keep their prior values;
and the button is re-enabled in every fetch outcome. -/
theorem c8_output_frame (el0 : El) (backend : ReqBody → FetchResult)
    (ht : ¬ normalizeFrontend el0.inputValue = []) :
    (translate el0 backend).el.translateBtnDisabled = false ∧
    (∀ msg, backend (rendererBody el0) = FetchResult.networkError msg →
       (translate el0 backend).el.outputValue = el0.outputValue ∧
       (translate el0 backend).el.langLabel = el0.langLabel) ∧
    (∀ r, backend (rendererBody el0) = FetchResult.response r →
       r.parsed = none →
       (translate el0 backend).el.outputValue = el0.outputValue ∧
       (translate el0 backend).el.langLabel = el0.langLabel) ∧
    (∀ r payload, backend (rendererBody el0) = FetchResult.response r →
       r.parsed = some payload → respOk r.status = false →
       (translate el0 backend).el.outputValue = el0.outputValue ∧
       (translate el0 backend).el.langLabel = el0.langLabel) := by
  refine ⟨?_, ?_, ?_, ?_⟩
  · cases hbk : backend (rendererBody el0) with
    | networkError msg => rw [translate_networkError ht hbk]
    | response r =>
      cases hp : r.parsed with
      | none => rw [translate_parseError ht hbk hp]
      | some payload =>
        cases hok : respOk r.status with
        | true => rw [translate_ok ht hbk hp hok]
        | false => rw [translate_notOk ht hbk hp hok]
  · intro msg hbk
    rw [translate_networkError ht hbk]
    exact ⟨rfl, rfl⟩
  · intro r hbk hp
    rw [translate_parseError ht hbk hp]
    exact ⟨rfl, rfl⟩
  · intro r payload hbk hp hok
    rw [translate_notOk ht hbk hp hok]
    exact ⟨rfl, rfl⟩

/-- Witness for C8: input "hola" against a backend that fails with a
network error; the output field keeps its prior value and the button is
re-enabled. -/
theorem c8_output_frame_witness :
    (translate ⟨"hola".toList, "prev".toList, [], false, [], none⟩
        (fun _ => FetchResult.networkError
          ("x".toList))).el.translateBtnDisabled = false ∧
    (translate ⟨"hola".toList, "prev".toList, [], false, [], none⟩
        (fun _ => FetchResult.networkError
          ("x".toList))).el.outputValue = "prev".toList :=
  ⟨(c8_output_frame ⟨"hola".toList, "prev".toList, [], false, [], none⟩
      (fun _ => FetchResult.networkError ("x".toList)) (by decide)).1,
   ((c8_output_frame ⟨"hola".toList, "prev".toList, [], false, [], none⟩
      (fun _ => FetchResult.networkError ("x".toList)) (by decide)).2.1
      ("x".toList) rfl).1⟩

/-! ## Shell trace model (health probe and user actions, renderer.js) -/

/-- An observable shell event: the startup GET /health probe settling,
or a user action that triggers `translate` (button click or
Ctrl+Enter). -/
inductive ShellEvent where
  | healthResult (ok : Bool)
  | userTranslate (el : El) (backend : ReqBody → FetchResult)

/-- Shell trace state: whether a health success has been observed, how
many POST /translate requests were issued, and how many of them before
the first health success. -/
structure ShellLog where
  healthOk : Bool
  posts : Nat
  postsBeforeHealth : Nat
deriving DecidableEq

/-- One shell event.  renderer.js only logs the health outcome to the
console; a user action runs `translate` whatever the health state. -/
def shellStep (s : ShellLog) (e : ShellEvent) : ShellLog :=
  match e with
  | ShellEvent.healthResult ok => { s with healthOk := s.healthOk || ok }
  | ShellEvent.userTranslate el0 backend =>
    let n := (translate el0 backend).requests.length
    { s with posts := s.posts + n,
             postsBeforeHealth :=
               s.postsBeforeHealth +
                 (if s.healthOk = true then 0 else n) }

/-- A full shell execution from startup. -/
def shellRun (evs : List ShellEvent) : ShellLog :=
  evs.foldl shellStep ⟨false, 0, 0⟩

/-- The temporal property claim C7 states: in every execution, no
POST /translate request is issued until a GET /health request has
succeeded. -/
def claimedC7 (evs : List ShellEvent) : Prop :=
  (shellRun evs).postsBeforeHealth = 0

/-- Claim C7 fails as stated: renderer.js only logs the health result
and wires the translate handlers unconditionally, so a user translate
action issues a POST before any health success. -/
theorem c7_counterexample :
    ¬ claimedC7 [ShellEvent.userTranslate
        ⟨"hola".toList, [], [], false, [], none⟩
        (fun _ => FetchResult.networkError [])] := by
  unfold claimedC7
  decide

/-- Count of POST /translate requests the user actions alone generate. -/
def userPosts : List ShellEvent → Nat
  | [] => 0
  | ShellEvent.healthResult _ :: evs => userPosts evs
  | ShellEvent.userTranslate el0 backend :: evs =>
    (translate el0 backend).requests.length + userPosts evs

/-- Claim C7 (amended): the shell issues the GET /health probe at
startup only to log the outcome; translation is not gated on it: in
every execution the POST /translate requests issued are exactly those
generated by the user translate actions, regardless of health
events. -/
theorem c7_health_does_not_gate (evs : List ShellEvent) :
    (shellRun evs).posts = userPosts evs := by
  suffices h : ∀ s : ShellLog,
      (evs.foldl shellStep s).posts = s.posts + userPosts evs by
    simpa using h ⟨false, 0, 0⟩
  induction evs with
  | nil => intro s; simp [userPosts]
  | cons e evs ih =>
    intro s
    rw [List.foldl_cons, ih]
    cases e with
    | healthResult ok => simp [shellStep, userPosts]
    | userTranslate el0 backend =>
      simp only [shellStep, userPosts]
      omega

/-! ## main.js: backend process lifecycle -/

/-- State of the Electron main process: the spawned backend process
handle (`none` once stopped) and the log of kill calls issued. -/
structure MainState where
  backendProcess : Option Nat
  killed : List Nat
deriving DecidableEq

/-- `stopBackend` from main.js: if a handle is present, kill it and
null the handle; otherwise do nothing. -/
def stopBackend (s : MainState) : MainState :=
  match s.backendProcess with
  | some p => { backendProcess := none, killed := s.killed ++ [p] }
  | none => s

/-- `startBackend` from main.js, storing the freshly spawned process
handle. -/
def startBackend (pid : Nat) (s : MainState) : MainState :=
  { s with backendProcess := some pid }

/-- Claim C10: `stopBackend` is idempotent and kills the spawned
process at most once per spawn: after any call the handle is null,
every subsequent call (window-closed then window-all-closed) is a
no-op, and after a spawn any number of stops kills that process exactly
once. -/
theorem c10_stopBackend_idempotent (s : MainState) (pid : Nat) :
    (stopBackend s).backendProcess = none ∧
    stopBackend (stopBackend s) = stopBackend s ∧
    (stopBackend (stopBackend (startBackend pid s))).killed =
      s.killed ++ [pid] := by
  refine ⟨?_, ?_, ?_⟩
  · cases hs : s.backendProcess <;> simp [stopBackend, hs]
  · cases hs : s.backendProcess <;> simp [stopBackend, hs]
  · simp [stopBackend, startBackend]

end Interprete
